import Mathlib

/-!
# Verification of the schema-driven dynamic-form state engine

Shallow embedding of the engine implemented in `DynamicForm.tsx`
(`getFieldKey`, the initializer effect, `handleFieldChange`,
`checkDependentSections`, `validateForm`, `handleSubmit`), over the data
model of `form.types.ts`.  JavaScript runtime values that can be either a
string or an attachment list are modelled by `JSValue`; runtime exceptions
(e.g. calling `.trim()` on an array) are modelled by `Except JsErr`.
Environment services that are not part of the repository's code — the
`Date` constructor and the current clock — are passed in as explicit
parameters (`parseDate`, `now`).
-/

set_option maxHeartbeats 1000000

namespace BankingForm

/-- A JavaScript value stored in the form value store: either a string or a
list of attachment references (modelled as strings). -/
inductive JSValue where
  | str (s : String)
  | list (l : List String)
  deriving DecidableEq, Repr

/-- A JavaScript runtime exception.  The engine can only raise a
`TypeError` (calling a string method such as `trim` or `replace` on an
array value). -/
inductive JsErr where
  | typeError
  deriving DecidableEq, Repr

/-- JavaScript truthiness of a stored value: the empty string is falsy;
every array (even the empty one) is truthy. -/
def jsTruthy : JSValue → Bool
  | .str s => s ≠ ""
  | .list _ => true

/-- `.length` of a stored value: string length or array length. -/
def jsLength : JSValue → Nat
  | .str s => s.length
  | .list l => l.length

/-- JavaScript string coercion of a value (used by `RegExp.test` when it
receives an array): arrays are joined with commas. -/
def jsJoinComma : List String → String
  | [] => ""
  | [s] => s
  | s :: rest => s ++ "," ++ jsJoinComma rest

/-- String coercion of a `JSValue`. -/
def jsToStr : JSValue → String
  | .str s => s
  | .list l => jsJoinComma l

/-- Whitespace trim at both ends, on the character list (models
`String.prototype.trim`). -/
def jsTrim (s : String) : String :=
  ⟨((s.data.dropWhile Char.isWhitespace).reverse.dropWhile Char.isWhitespace).reverse⟩

/-- Lower-casing (models `String.prototype.toLowerCase` for the ASCII
names that appear in schemas). -/
def jsLower (s : String) : String :=
  ⟨s.data.map Char.toLower⟩

/-- Substring test on character lists (models `String.prototype.includes`
with a string argument). -/
def hasSubAux : List Char → List Char → Bool
  | [], pat => pat.isEmpty
  | l@(_ :: t), pat => pat.isPrefixOf l || hasSubAux t pat

/-- Substring test on strings. -/
def hasSub (s pat : String) : Bool :=
  hasSubAux s.data pat.data

/-- Body of a JavaScript numeric literal: `digits ['.' digits]` or
`'.' digits` (exponents/hex are not used by the schemas this engine
receives and are omitted from the model). -/
def numBody (cs : List Char) : Bool :=
  let d := cs.takeWhile Char.isDigit
  let r := cs.drop d.length
  if d.isEmpty then
    match r with
    | '.' :: r2 => !r2.isEmpty && r2.all Char.isDigit
    | _ => false
  else
    match r with
    | [] => true
    | '.' :: r2 => r2.all Char.isDigit
    | _ => false

/-- Numeric literal with an optional sign. -/
def numLit (cs : List Char) : Bool :=
  match cs with
  | '+' :: r => numBody r
  | '-' :: r => numBody r
  | _ => numBody cs

/-- `isNaN(Number(s))` for a string `s`: the empty/whitespace string
coerces to `0` (not NaN); otherwise NaN iff not a numeric literal. -/
def strIsNaN (s : String) : Bool :=
  let t := jsTrim s
  if t = "" then false else !numLit t.data

/-- `isNaN(Number(v))`: arrays of length 0 coerce to `0`, singletons
coerce through their element, longer arrays stringify with commas and are
always NaN. -/
def jsIsNaN : JSValue → Bool
  | .str s => strIsNaN s
  | .list [] => false
  | .list [s] => strIsNaN s
  | .list _ => true

/-- `parseInt(s)`: skip leading whitespace, optional sign, then the
longest digit prefix; `none` models NaN. -/
def jsParseInt (s : String) : Option Int :=
  let cs := s.data.dropWhile Char.isWhitespace
  let core := fun (l : List Char) =>
    let d := l.takeWhile Char.isDigit
    if d.isEmpty then (none : Option Nat)
    else some (d.foldl (fun n c => n * 10 + (c.toNat - 48)) 0)
  match cs with
  | '-' :: r => (core r).map (fun n => -(n : Int))
  | '+' :: r => (core r).map (fun n => (n : Int))
  | _ => (core cs).map (fun n => (n : Int))

/-- The permissive email pattern of the source,
`^[^\s@]+@[^\s@]+\.[^\s@]+$`: one `@`, a non-empty local part without
whitespace or `@`, and a domain containing a dot that is neither its
first nor its last character. -/
def emailOk (s : String) : Bool :=
  let cs := s.data
  let a := cs.takeWhile (· ≠ '@')
  match cs.dropWhile (· ≠ '@') with
  | [] => false
  | _ :: r =>
    !a.isEmpty && a.all (fun c => !c.isWhitespace) &&
    !r.isEmpty && r.all (fun c => !c.isWhitespace && c ≠ '@') &&
    (r.drop 1).dropLast.contains '.'

/-- The phone pattern of the source: after `value.replace(/\D/g, '')`,
the result must match `^[0-9]{3}$`-style exactness, i.e. exactly ten
digits remain. -/
def phoneDigitsOk (s : String) : Bool :=
  (s.data.filter Char.isDigit).length = 10

/-- `String.prototype.split('__')` at the character-list level: leftmost,
non-overlapping occurrences of the two-underscore delimiter. -/
def consHead (c : Char) : List (List Char) → List (List Char)
  | [] => [[c]]
  | h :: t => (c :: h) :: t

/-- Splitter worker for the `"__"` delimiter. -/
def splitUU : List Char → List (List Char)
  | [] => [[]]
  | '_' :: '_' :: rest => [] :: splitUU rest
  | c :: rest => consHead c (splitUU rest)

/-- `fieldKey.split('__')` as used by the dependency resolver. -/
def jsSplit (s : String) : List String :=
  (splitUU s.data).map (fun l => String.mk l)

/-! ## Data model (`form.types.ts`)

Only the properties the engine reads are carried; purely presentational
properties (`placeholder`, `speechToText`, …) are omitted. -/

/-- A schema field (`FormField`). `order` is `number | null`. -/
structure Field where
  value : String
  valueMinLength : Option String := none
  valueLength : Option String := none
  sfField : String
  order : Option Int := none
  name : String
  mandatory : Bool := false
  isHidden : Bool := false
  isFutureDate : Bool := true
  inputType : String := ""
  fieldType : String := ""
  deriving DecidableEq, Repr

/-- A schema subsection (`SubSection`). -/
structure SubSection where
  name : String
  minImageCapture : Nat := 0
  maxImageCapture : Nat := 0
  isPrePopulateData : Bool := false
  fields : List Field
  deriving DecidableEq, Repr

/-- A schema section (`Section`). -/
structure Section where
  name : String
  subSections : List SubSection
  isPrePopulateData : Bool := false
  deriving DecidableEq, Repr

/-- A dependency rule (`DependentSectionDetail`). -/
structure DepRule where
  value : String
  sectionName : String
  fieldName : String
  dependentSectionValue : String
  deriving DecidableEq, Repr

/-- The schema (`formData.data.templateWrap`). -/
structure Schema where
  sections : List Section
  dependentSectionsDetails : List DepRule
  deriving DecidableEq, Repr

/-- Decidable equality of `Except` results, to let witnesses evaluate the
engine by `decide`. -/
instance exceptDecEq {ε α : Type} [DecidableEq ε] [DecidableEq α] :
    DecidableEq (Except ε α) := fun a b =>
  match a, b with
  | .error e1, .error e2 =>
    match decEq e1 e2 with
    | .isTrue h => .isTrue (by rw [h])
    | .isFalse h => .isFalse (fun hc => h (by injection hc))
  | .ok v1, .ok v2 =>
    match decEq v1 v2 with
    | .isTrue h => .isTrue (by rw [h])
    | .isFalse h => .isFalse (fun hc => h (by injection hc))
  | .error e1, .ok v2 => .isFalse (fun hc => by injection hc)
  | .ok v1, .error e2 => .isFalse (fun hc => by injection hc)

/-- Insertion-ordered association map (a JavaScript object): lists of
key/value pairs. -/
abbrev JMap (α : Type) := List (String × α)

/-- `m[k] = v`: overwrite in place when the key exists (the entry keeps
its position), append otherwise. -/
def upsert {α : Type} (m : JMap α) (k : String) (v : α) : JMap α :=
  if m.any (fun p => p.1 = k) then
    m.map (fun p => if p.1 = k then (k, v) else p)
  else m ++ [(k, v)]

/-- `m[k]` (`undefined` modelled as `none`). -/
def lookupA {α : Type} (m : JMap α) (k : String) : Option α :=
  (m.find? (fun p => p.1 = k)).map (fun p => p.2)

/-- `delete m[k]`: remove the entry, preserving the order of the rest. -/
def eraseA {α : Type} (m : JMap α) (k : String) : JMap α :=
  m.filter (fun p => p.1 ≠ k)

/-- `Set.add`: insertion-ordered, no duplicates. -/
def sAdd (s : List String) (x : String) : List String :=
  if x ∈ s then s else s ++ [x]

/-- `Set.delete`. -/
def sRemove (s : List String) (x : String) : List String :=
  s.filter (fun y => y ≠ x)

/-- The whole runtime state held by the component:
`formValues`, `visibleSections`, `expandedSections`, `errors`. -/
structure EngineState where
  values : JMap JSValue
  visible : List String
  expanded : List String
  errors : JMap String
  deriving DecidableEq, Repr

/-! ## Field Key Deriver (`getFieldKey`) -/

/-- Template interpolation of an `order` value (`${order}` renders `null`
as the string `"null"`). -/
def jsShowOrder : Option Int → String
  | none => "null"
  | some n => toString n

/-- `field.sfField || field.order`, interpolated into the key. -/
def fieldRef (f : Field) : String :=
  if f.sfField = "" then jsShowOrder f.order else f.sfField

/-- The four key components joined with the `"__"` delimiter. -/
def key4 (a b c d : String) : String :=
  a ++ "__" ++ b ++ "__" ++ c ++ "__" ++ d

/-- `getFieldKey(sectionName, subSectionName, field)` =
`` `${sectionName}__${subSectionName}__${field.name}__${field.sfField || field.order}` ``. -/
def getFieldKey (sectionName subSectionName : String) (f : Field) : String :=
  key4 sectionName subSectionName f.name (fieldRef f)

/-! ## State Initializer (the `useEffect` over `formData`) -/

/-- The section/subsection/field tree flattened in declaration order (the
nested `forEach` walk of the initializer). -/
def allFields (schema : Schema) : List (Section × SubSection × Field) :=
  schema.sections.flatMap (fun sec =>
    sec.subSections.flatMap (fun sub =>
      sub.fields.map (fun f => (sec, sub, f))))

/-- `field.value || ''`. -/
def jsOrStr (v : String) : String :=
  if v = "" then "" else v

/-- `initialValues`: every field key mapped to its default (or `''`). -/
def initValues (schema : Schema) : JMap JSValue :=
  (allFields schema).foldl
    (fun m t => upsert m (getFieldKey t.1.name t.2.1.name t.2.2) (.str (jsOrStr t.2.2.value)))
    []

/-- `initialVisible`: every section name, unconditionally. -/
def initVisible (schema : Schema) : List String :=
  schema.sections.foldl (fun s sec => sAdd s sec.name) []

/-- The expanded-set entries produced by the initializer walk, in walk
order: a section's name when its pre-populate flag is set, then the
`${section.name}-${subSection.name}` composites of its flagged
subsections. -/
def expandedKeys (schema : Schema) : List String :=
  schema.sections.flatMap (fun sec =>
    (if sec.isPrePopulateData then [sec.name] else []) ++
      sec.subSections.filterMap (fun sub =>
        if sub.isPrePopulateData then some (sec.name ++ "-" ++ sub.name) else none))

/-- `initialExpanded`. -/
def initExpanded (schema : Schema) : List String :=
  (expandedKeys schema).foldl sAdd []

/-- `initialize(schema)`: the state installed by the initializer effect
(errors start empty). -/
def initState (schema : Schema) : EngineState :=
  ⟨initValues schema, initVisible schema, initExpanded schema, []⟩

/-! ## Dependency Resolver (`checkDependentSections`) -/

/-- `fieldKey.split('__')[0]` (a split result is never empty). -/
def keyPart0 (fieldKey : String) : String :=
  (jsSplit fieldKey).getD 0 ""

/-- `fieldKey.split('__')[3]` (`none` models `undefined`, which matches
no rule's `fieldName`). -/
def keyPart3 (fieldKey : String) : Option String :=
  (jsSplit fieldKey).get? 3

/-- Does a rule fire for the changed key?  The source compares
`rule.sectionName === fieldParts[0] && rule.fieldName === fieldParts[3]`. -/
def ruleMatches (r : DepRule) (fieldKey : String) : Bool :=
  r.sectionName = keyPart0 fieldKey && some r.fieldName = keyPart3 fieldKey

/-- The keys cleared when the section named `dep` is hidden: every field
key of every section bearing that name, in walk order. -/
def clearKeys (schema : Schema) (dep : String) : List String :=
  (allFields schema).filterMap (fun t =>
    if t.1.name = dep then some (getFieldKey t.1.name t.2.1.name t.2.2) else none)

/-- Overwrite every field of the sections named `dep` with `''`
(the `setFormValues` loop of the hide branch). -/
def clearSectionValues (schema : Schema) (dep : String) (m : JMap JSValue) : JMap JSValue :=
  (clearKeys schema dep).foldl (fun m k => upsert m k (.str "")) m

/-- One dependency rule applied to (visibleSections, formValues). -/
def applyRule (schema : Schema) (fieldKey : String) (v : JSValue)
    (st : List String × JMap JSValue) (r : DepRule) : List String × JMap JSValue :=
  if ruleMatches r fieldKey then
    if v = .str r.value then (sAdd st.1 r.dependentSectionValue, st.2)
    else (sRemove st.1 r.dependentSectionValue,
          clearSectionValues schema r.dependentSectionValue st.2)
  else st

/-- `checkDependentSections(fieldKey, value)`: every rule evaluated in
declaration order against the single new value. -/
def checkDependentSections (schema : Schema) (visible : List String)
    (values : JMap JSValue) (fieldKey : String) (v : JSValue) :
    List String × JMap JSValue :=
  schema.dependentSectionsDetails.foldl (applyRule schema fieldKey v) (visible, values)

/-- `handleFieldChange(fieldKey, value)`: write the value, clear the
key's error when one is present (and truthy), then run the resolver. -/
def handleFieldChange (schema : Schema) (st : EngineState)
    (fieldKey : String) (v : JSValue) : EngineState :=
  let values := upsert st.values fieldKey v
  let errors :=
    match lookupA st.errors fieldKey with
    | some m => if m ≠ "" then eraseA st.errors fieldKey else st.errors
    | none => st.errors
  let vv := checkDependentSections schema st.visible values fieldKey v
  ⟨vv.2, vv.1, st.expanded, errors⟩

/-! ## Validation Engine (`validateForm`) -/

/-- `formValues[fieldKey] || ''`: a missing entry and the empty string
both become `''`; any truthy value (including an empty array) is kept. -/
def storedValue (values : JMap JSValue) (k : String) : JSValue :=
  match lookupA values k with
  | none => .str ""
  | some v => if jsTruthy v then v else .str ""

/-- `Array.isArray(value) ? value : (value ? [value] : [])`. -/
def coerceList : JSValue → List String
  | .list l => l
  | .str s => if s ≠ "" then [s] else []

/-- `value.includes('@')`: substring membership for a string, element
membership for an array. -/
def jsIncludesAt : JSValue → Bool
  | .str s => s.data.contains '@'
  | .list l => l.contains "@"

/-- `date > new Date()` where a failed parse gives `NaN` (every
comparison with `NaN` is false). -/
def dateGt : Option Int → Int → Bool
  | some t, n => t > n
  | none, _ => false

/-- Check 1, mandatory: `field.mandatory && !value.trim()`.  `.trim()` on
an array value is a `TypeError`. -/
def mandCheck (f : Field) (v : JSValue) : Except JsErr (Option String) :=
  if f.mandatory then
    match v with
    | .list _ => .error .typeError
    | .str s => .ok (if jsTrim s = "" then some (f.name ++ " is required") else none)
  else .ok none

/-- Check 2, max length: `value && field.valueLength` (both truthy),
`parseInt`, comparison with `NaN` is false. -/
def maxLenCheck (f : Field) (v : JSValue) (e : Option String) : Option String :=
  match f.valueLength with
  | some vl =>
    if jsTruthy v && vl ≠ "" then
      match jsParseInt vl with
      | some n =>
        if (jsLength v : Int) > n then
          some (f.name ++ " must be at most " ++ toString n ++ " characters")
        else e
      | none => e
    else e
  | none => e

/-- Check 3, min length. -/
def minLenCheck (f : Field) (v : JSValue) (e : Option String) : Option String :=
  match f.valueMinLength with
  | some vl =>
    if jsTruthy v && vl ≠ "" then
      match jsParseInt vl with
      | some n =>
        if (jsLength v : Int) < n then
          some (f.name ++ " must be at least " ++ toString n ++ " characters")
        else e
      | none => e
    else e
  | none => e

/-- Check 4, numeric subtype. -/
def numCheck (f : Field) (v : JSValue) (e : Option String) : Option String :=
  if f.inputType = "NUMBER" && jsTruthy v then
    if jsIsNaN v then some (f.name ++ " must be a valid number") else e
  else e

/-- Check 5, date subtype: two successive ifs (invalid date, then future
date; the second overwrites the first when both fire). -/
def dateCheck (f : Field) (v : JSValue) (pd : JSValue → Option Int) (now : Int)
    (e : Option String) : Option String :=
  if f.inputType = "DATE" && jsTruthy v then
    let d := pd v
    let ea := if d = none then some (f.name ++ " must be a valid date") else e
    if !f.isFutureDate && dateGt d now then
      some (f.name ++ " cannot be a future date")
    else ea
  else e

/-- Check 6, image attachments: gated on `field.mandatory`; the count
bounds come from the owning subsection (`|| 0` is the identity on the
already-numeric capture bounds). -/
def imageCheck (sub : SubSection) (f : Field) (v : JSValue) (e : Option String) :
    Option String :=
  if f.fieldType = "IMAGE" && f.mandatory then
    let c := (coerceList v).length
    let ea :=
      if c = 0 then some (f.name ++ " is required. Please upload at least one image.")
      else e
    let eb :=
      if sub.minImageCapture > 0 && c < sub.minImageCapture then
        some (f.name ++ " requires at least " ++ toString sub.minImageCapture ++ " image(s).")
      else ea
    if sub.maxImageCapture > 0 && c > sub.maxImageCapture then
      some (f.name ++ " allows maximum " ++ toString sub.maxImageCapture ++ " image(s).")
    else eb
  else e

/-- Check 7, video attachments. -/
def videoCheck (f : Field) (v : JSValue) (e : Option String) : Option String :=
  if f.fieldType = "VIDEO" && f.mandatory then
    if (coerceList v).length = 0 then
      some (f.name ++ " is required. Please upload at least one video.")
    else e
  else e

/-- Check 8, heuristic email. -/
def emailCheck (f : Field) (v : JSValue) (e : Option String) : Option String :=
  if f.inputType = "TEXT" && jsTruthy v && jsIncludesAt v then
    if !emailOk (jsToStr v) then some (f.name ++ " must be a valid email address") else e
  else e

/-- Guard of check 9 (heuristic phone). -/
def phoneCond (f : Field) (v : JSValue) : Bool :=
  f.inputType = "NUMBER" && jsTruthy v &&
    (hasSub (jsLower f.name) "phone" || hasSub (jsLower f.name) "mobile")

/-- The pure tail of the chain, checks 2–8 applied to the message left by
check 1; each check that fires overwrites the accumulated message, so the
net effect on `newErrors[fieldKey]` is the last matching message. -/
def chain2to8 (sub : SubSection) (f : Field) (v : JSValue)
    (pd : JSValue → Option Int) (now : Int) (e1 : Option String) : Option String :=
  emailCheck f v (videoCheck f v (imageCheck sub f v
    (dateCheck f v pd now (numCheck f v (minLenCheck f v (maxLenCheck f v e1))))))

/-- The per-field rule chain of `validateForm`, in source order.
Check 9 calls `value.replace(/\D/g, '')`, a `TypeError` on an array. -/
def runChecks (sub : SubSection) (f : Field) (v : JSValue)
    (pd : JSValue → Option Int) (now : Int) : Except JsErr (Option String) :=
  match mandCheck f v with
  | .error e => .error e
  | .ok e1 =>
    let e8 := chain2to8 sub f v pd now e1
    if phoneCond f v then
      match v with
      | .list _ => .error .typeError
      | .str s =>
        .ok (if !phoneDigitsOk s then
               some (f.name ++ " must be a valid 10-digit phone number")
             else e8)
    else .ok e8

/-- The walk of `validateForm`: sections skipped when not visible,
fields skipped when hidden, everything else in declaration order. -/
def walkFields (schema : Schema) (visible : List String) :
    List (Section × SubSection × Field) :=
  (schema.sections.filter (fun sec => visible.contains sec.name)).flatMap (fun sec =>
    sec.subSections.flatMap (fun sub =>
      (sub.fields.filter (fun f => !f.isHidden)).map (fun f => (sec, sub, f))))

/-- The error-accumulating loop of `validateForm`: for each walked field,
run the rule chain on `formValues[fieldKey] || ''` and record the final
message (an exception aborts the whole pass, as in `forEach`). -/
def validateFields (values : JMap JSValue) (pd : JSValue → Option Int) (now : Int) :
    List (Section × SubSection × Field) → JMap String → Except JsErr (JMap String)
  | [], m => .ok m
  | t :: rest, m =>
    match runChecks t.2.1 t.2.2
        (storedValue values (getFieldKey t.1.name t.2.1.name t.2.2)) pd now with
    | .error e => .error e
    | .ok none => validateFields values pd now rest m
    | .ok (some msg) =>
      validateFields values pd now rest
        (upsert m (getFieldKey t.1.name t.2.1.name t.2.2) msg)

/-- `validateForm()`: a fresh error map built over the visible,
non-hidden fields. -/
def validateForm (schema : Schema) (values : JMap JSValue) (visible : List String)
    (pd : JSValue → Option Int) (now : Int) : Except JsErr (JMap String) :=
  validateFields values pd now (walkFields schema visible) []

/-- The key of the first field of a walk whose rule chain produces a
message (`none` when no field fails, or when a field throws first). -/
def firstFailingKey (values : JMap JSValue) (pd : JSValue → Option Int) (now : Int) :
    List (Section × SubSection × Field) → Option String
  | [] => none
  | t :: rest =>
    match runChecks t.2.1 t.2.2
        (storedValue values (getFieldKey t.1.name t.2.1.name t.2.2)) pd now with
    | .error _ => none
    | .ok none => firstFailingKey values pd now rest
    | .ok (some _) => some (getFieldKey t.1.name t.2.1.name t.2.2)

/-! ## Submission (`handleSubmit`) -/

/-- What a submit attempt produces: the store handed to `onSubmit` (when
it was called), the freshly installed error map, and the key exposed for
focus/scroll (`Object.keys(validation.errors)[0]`). -/
structure SubmitOutcome where
  submitted : Option (JMap JSValue)
  errors : JMap String
  focusKey : Option String
  deriving DecidableEq, Repr

/-- `handleSubmit`: validate, then either call `onSubmit(formValues)` or
expose the first error key. -/
def handleSubmit (schema : Schema) (st : EngineState)
    (pd : JSValue → Option Int) (now : Int) : Except JsErr SubmitOutcome :=
  match validateForm schema st.values st.visible pd now with
  | .error e => .error e
  | .ok errs =>
    if errs.isEmpty then .ok ⟨some st.values, errs, none⟩
    else .ok ⟨none, errs, errs.head?.map (fun p => p.1)⟩

/-! ## Spec-side walk (for comparison with the code's walk)

The specification (§4.5, §8) describes the walk with fields sorted by
ascending `order`, ties broken by original list position.  These
definitions follow the spec's words, to be compared with `walkFields`. -/

/-- `order || 0`, the sort key named by the spec. -/
def orderVal (f : Field) : Int :=
  match f.order with
  | some n => n
  | none => 0

/-- Stable insertion into an order-sorted field list: the new field goes
after every field with an order key less than or equal to its own, so
ties keep their original relative position. -/
def insertOrd (f : Field) : List Field → List Field
  | [] => [f]
  | g :: rest =>
    if orderVal g < orderVal f then g :: insertOrd f rest else f :: g :: rest

/-- Stable sort of a field list by ascending `order`. -/
def sortByOrder : List Field → List Field
  | [] => []
  | f :: rest => insertOrd f (sortByOrder rest)

/-- The spec's walk: like `walkFields`, but fields stably sorted by
ascending `order`. -/
def specSortedWalk (schema : Schema) (visible : List String) :
    List (Section × SubSection × Field) :=
  (schema.sections.filter (fun sec => visible.contains sec.name)).flatMap (fun sec =>
    sec.subSections.flatMap (fun sub =>
      ((sortByOrder (sub.fields.filter (fun f => !f.isHidden))).map (fun f => (sec, sub, f)))))

/-! ## Concrete inputs used by witnesses and counterexamples -/

/-- A `Date` model that parses nothing (no date fields involved). -/
def pd0 : JSValue → Option Int := fun _ => none

/-- A `Date` model for the date scenario: the string `"D"` parses to
timestamp 100. -/
def pdDemo : JSValue → Option Int := fun v => if v = .str "D" then some 100 else none

/-- Trigger field of the dependency scenario (section A). -/
def fldQ : Field := { value := "", sfField := "fx", name := "q" }

/-- Section A of the dependency scenario. -/
def secA : Section := { name := "A", subSections := [{ name := "S", fields := [fldQ] }] }

/-- A field of the dependent section B, with a non-empty default. -/
def fldR : Field := { value := "hello", sfField := "gy", name := "r" }

/-- Dependent section B. -/
def secB : Section := { name := "B", subSections := [{ name := "T", fields := [fldR] }] }

/-- Rule: A.fx = "Yes" shows B. -/
def ruleYes : DepRule :=
  { value := "Yes", sectionName := "A", fieldName := "fx", dependentSectionValue := "B" }

/-- Rule: A.fx = "No" shows B (same dependent section, other trigger). -/
def ruleNo : DepRule :=
  { value := "No", sectionName := "A", fieldName := "fx", dependentSectionValue := "B" }

/-- Schema with the two overlapping rules. -/
def schemaTwoRules : Schema := { sections := [secA, secB], dependentSectionsDetails := [ruleYes, ruleNo] }

/-- Schema with the single rule. -/
def schemaOneRule : Schema := { sections := [secA, secB], dependentSectionsDetails := [ruleYes] }

/-- Key of the trigger field. -/
def keyQ : String := getFieldKey "A" "S" fldQ

/-- Key of the dependent field. -/
def keyR : String := getFieldKey "B" "T" fldR

/-- A mandatory image field. -/
def imgFieldM : Field :=
  { value := "", sfField := "img", name := "Photo", mandatory := true, fieldType := "IMAGE" }

/-- The same image field with the mandatory flag cleared. -/
def imgFieldO : Field :=
  { value := "", sfField := "img", name := "Photo", mandatory := false, fieldType := "IMAGE" }

/-- Subsection declaring a minimum capture count of 2, mandatory field. -/
def subCapM : SubSection := { name := "P", minImageCapture := 2, fields := [imgFieldM] }

/-- Subsection declaring a minimum capture count of 2, optional field. -/
def subCapO : SubSection := { name := "P", minImageCapture := 2, fields := [imgFieldO] }

/-- Schema around `subCapM`. -/
def schemaImgM : Schema :=
  { sections := [{ name := "M", subSections := [subCapM] }], dependentSectionsDetails := [] }

/-- Schema around `subCapO`. -/
def schemaImgO : Schema :=
  { sections := [{ name := "M", subSections := [subCapO] }], dependentSectionsDetails := [] }

/-- Key of the mandatory image field (also the key of the optional one:
the two fields differ only in flags that are not part of the key). -/
def keyImg : String := getFieldKey "M" "P" imgFieldM

/-- A date field that disallows future dates. -/
def fldDate : Field :=
  { value := "", sfField := "dt", name := "When", inputType := "DATE", isFutureDate := false }

/-- Schema with the single date field. -/
def schemaDate : Schema :=
  { sections := [{ name := "D", subSections := [{ name := "DS", fields := [fldDate] }] }],
    dependentSectionsDetails := [] }

/-- Key of the date field. -/
def keyDate : String := getFieldKey "D" "DS" fldDate

/-- Two distinct fields that collide on every key component (same name,
same reference id, different default value). -/
def fldDupX : Field := { value := "x", sfField := "sf", name := "n" }

/-- The colliding twin of `fldDupX`. -/
def fldDupY : Field := { value := "y", sfField := "sf", name := "n" }

/-- Schema containing the colliding pair in one subsection. -/
def schemaDup : Schema :=
  { sections := [{ name := "S", subSections := [{ name := "SS", fields := [fldDupX, fldDupY] }] }],
    dependentSectionsDetails := [] }

/-- A plain optional field (valid-form scenario). -/
def fldOpt : Field := { value := "", sfField := "o", name := "Note" }

/-- Schema whose only field is optional: validation always passes. -/
def schemaOk : Schema :=
  { sections := [{ name := "O", subSections := [{ name := "OS", fields := [fldOpt] }] }],
    dependentSectionsDetails := [] }

/-- Mandatory empty field declared second in the list but first by
`order`. -/
def fldOrd1 : Field := { value := "", sfField := "a", name := "A", mandatory := true, order := some 1 }

/-- Mandatory empty field declared first in the list but second by
`order`. -/
def fldOrd2 : Field := { value := "", sfField := "b", name := "B", mandatory := true, order := some 2 }

/-- Schema whose field list order disagrees with the `order` indices. -/
def schemaOrd : Schema :=
  { sections := [{ name := "S", subSections := [{ name := "SS", fields := [fldOrd2, fldOrd1] }] }],
    dependentSectionsDetails := [] }

/-- Runtime state of the `schemaOrd` scenario. -/
def stOrd : EngineState := initState schemaOrd

/-- State for the frame-property scenario: the edit targets the field of
section B under `schemaOneRule` (whose only rule watches section A), with
a pending error on that key. -/
def stFrame : EngineState :=
  { values := initValues schemaOneRule,
    visible := ["A", "B"],
    expanded := ["A"],
    errors := [(keyR, "r is required")] }

/-- A field with delimiter-free name and reference id (round-trip
scenario). -/
def fldC6 : Field := { value := "", sfField := "d", name := "c" }

/-! ## Specification devices -/

/-- The derived key of every field position of the schema, in walk
order. -/
def allKeys (schema : Schema) : List String :=
  (allFields schema).map (fun t => getFieldKey t.1.name t.2.1.name t.2.2)

/-- Value half of the hide invariant: every field key of every section
bearing the name `dep` holds the empty string. -/
def ClearInv (schema : Schema) (dep : String) (m : JMap JSValue) : Prop :=
  ∀ sec ∈ schema.sections, sec.name = dep →
    ∀ sub ∈ sec.subSections, ∀ f ∈ sub.fields,
      lookupA m (getFieldKey sec.name sub.name f) = some (.str "")

/-- Invariant targeted by the hide branch of the resolver: the section
named `dep` is not visible and its field keys are all cleared. -/
def RuleInv (schema : Schema) (dep : String) (st : List String × JMap JSValue) : Prop :=
  dep ∉ st.1 ∧ ClearInv schema dep st.2

/-! ## Helper lemmas: association maps and insertion-ordered sets -/

theorem lookupA_cons {α : Type} (a : String) (b : α) (t : JMap α) (j : String) :
    lookupA ((a, b) :: t) j = if a = j then some b else lookupA t j := by
  by_cases h : a = j <;> simp [lookupA, List.find?, h]

theorem lookupA_mapg_ne {α : Type} (k : String) (v : α) (m : JMap α) (j : String)
    (hne : j ≠ k) :
    lookupA (m.map (fun p => if p.1 = k then (k, v) else p)) j = lookupA m j := by
  induction m with
  | nil => rfl
  | cons p t ih =>
    obtain ⟨a, b⟩ := p
    by_cases hak : a = k
    · subst hak
      simp only [List.map_cons, if_pos rfl]
      rw [lookupA_cons, lookupA_cons, if_neg (fun h => hne h.symm),
        if_neg (fun h => hne h.symm), ih]
    · simp only [List.map_cons, if_neg hak]
      rw [lookupA_cons, lookupA_cons, ih]

theorem lookupA_mapg_self {α : Type} (k : String) (v : α) (m : JMap α)
    (h : m.any (fun p => p.1 = k) = true) :
    lookupA (m.map (fun p => if p.1 = k then (k, v) else p)) k = some v := by
  induction m with
  | nil => simp at h
  | cons p t ih =>
    obtain ⟨a, b⟩ := p
    simp only [List.map_cons]
    by_cases hak : a = k
    · rw [show (if (a, b).1 = k then (k, v) else (a, b)) = (k, v) from by simp [hak]]
      rw [lookupA_cons, if_pos rfl]
    · rw [show (if (a, b).1 = k then (k, v) else (a, b)) = (a, b) from by simp [hak]]
      rw [lookupA_cons, if_neg hak]
      apply ih
      simp only [List.any_cons] at h
      simpa [hak] using h

theorem lookupA_append_single {α : Type} (k : String) (v : α) (m : JMap α) (j : String)
    (h : m.any (fun p => p.1 = k) = false) :
    lookupA (m ++ [(k, v)]) j = if j = k then some v else lookupA m j := by
  induction m with
  | nil =>
    rw [List.nil_append, lookupA_cons]
    by_cases hjk : j = k
    · rw [if_pos (hjk.symm), if_pos hjk]
    · rw [if_neg (fun h2 => hjk h2.symm), if_neg hjk]
  | cons p t ih =>
    obtain ⟨a, b⟩ := p
    simp only [List.any_cons, Bool.or_eq_false_iff, decide_eq_false_iff_not] at h
    rw [List.cons_append, lookupA_cons, ih h.2, lookupA_cons]
    by_cases haj : a = j
    · subst haj
      rw [if_pos rfl, if_pos rfl, if_neg (fun hjk => h.1 hjk)]
    · rw [if_neg haj, if_neg haj]

theorem lookupA_upsert {α : Type} (m : JMap α) (k : String) (v : α) (j : String) :
    lookupA (upsert m k v) j = if j = k then some v else lookupA m j := by
  unfold upsert
  by_cases hmem : m.any (fun p => p.1 = k) = true
  · rw [if_pos hmem]
    by_cases hjk : j = k
    · rw [if_pos hjk, hjk, lookupA_mapg_self k v m hmem]
    · rw [if_neg hjk, lookupA_mapg_ne k v m j hjk]
  · rw [if_neg hmem, lookupA_append_single k v m j (Bool.eq_false_iff.mpr hmem)]

theorem upsert_ne_nil {α : Type} (m : JMap α) (k : String) (v : α) :
    upsert m k v ≠ [] := by
  unfold upsert
  by_cases hmem : m.any (fun p => p.1 = k) = true
  · rw [if_pos hmem]
    intro hcon
    have : m = [] := by simpa using hcon
    subst this
    simp at hmem
  · rw [if_neg hmem]
    simp

theorem headKey_upsert {α : Type} (m : JMap α) (k : String) (v : α) (h : m ≠ []) :
    (upsert m k v).head?.map Prod.fst = m.head?.map Prod.fst := by
  unfold upsert
  cases m with
  | nil => exact absurd rfl h
  | cons p t =>
    obtain ⟨a, b⟩ := p
    split
    · by_cases hak : a = k <;> simp [hak]
    · simp

theorem lookupA_eraseA {α : Type} (m : JMap α) (k j : String) :
    lookupA (eraseA m k) j = if j = k then none else lookupA m j := by
  by_cases hjk : j = k
  · rw [if_pos hjk]
    subst hjk
    induction m with
    | nil => rfl
    | cons p t ih =>
      obtain ⟨a, b⟩ := p
      simp only [eraseA, List.filter_cons] at ih ⊢
      by_cases haj : a = j
      · rw [if_neg (by simp [haj])]
        exact ih
      · rw [if_pos (by simp [haj]), lookupA_cons, if_neg haj]
        exact ih
  · rw [if_neg hjk]
    induction m with
    | nil => rfl
    | cons p t ih =>
      obtain ⟨a, b⟩ := p
      simp only [eraseA, List.filter_cons] at ih ⊢
      by_cases hak : a = k
      · rw [if_neg (by simp [hak]), ih, lookupA_cons,
          if_neg (fun h2 : a = j => hjk (by rw [← h2, hak]))]
      · rw [if_pos (by simp [hak]), lookupA_cons, ih, lookupA_cons]

theorem mem_sAdd {s : List String} {x y : String} :
    x ∈ sAdd s y ↔ x ∈ s ∨ x = y := by
  unfold sAdd
  split
  · constructor
    · exact fun h => Or.inl h
    · rintro (h | rfl)
      · exact h
      · assumption
  · simp

theorem mem_sRemove {s : List String} {x y : String} :
    x ∈ sRemove s y ↔ x ∈ s ∧ x ≠ y := by
  simp [sRemove, List.mem_filter]

theorem mem_foldl_sAdd (l : List String) (init : List String) (x : String) :
    x ∈ l.foldl sAdd init ↔ x ∈ init ∨ x ∈ l := by
  induction l generalizing init with
  | nil => simp
  | cons a t ih =>
    rw [List.foldl_cons, ih, mem_sAdd]
    simp only [List.mem_cons]
    tauto

theorem lookupA_foldl_const_pres {α : Type} (c : α) (ks : List String) (m : JMap α)
    (j : String) (h : lookupA m j = some c) :
    lookupA (ks.foldl (fun m k => upsert m k c) m) j = some c := by
  induction ks generalizing m with
  | nil => exact h
  | cons k t ih =>
    rw [List.foldl_cons]
    apply ih
    rw [lookupA_upsert]
    split <;> simp [h]

theorem lookupA_foldl_const_mem {α : Type} (c : α) (ks : List String) (m : JMap α)
    (j : String) (h : j ∈ ks) :
    lookupA (ks.foldl (fun m k => upsert m k c) m) j = some c := by
  induction ks generalizing m with
  | nil => simp at h
  | cons k t ih =>
    rw [List.foldl_cons]
    rcases List.mem_cons.mp h with rfl | hmem
    · exact lookupA_foldl_const_pres c t _ j (by rw [lookupA_upsert, if_pos rfl])
    · exact ih (upsert m k c) hmem

theorem mem_allFields {schema : Schema} {sec : Section} {sub : SubSection} {f : Field} :
    (sec, sub, f) ∈ allFields schema ↔
      sec ∈ schema.sections ∧ sub ∈ sec.subSections ∧ f ∈ sub.fields := by
  simp only [allFields, List.mem_flatMap, List.mem_map, Prod.mk.injEq]
  constructor
  · rintro ⟨s, hs, ss, hss, f2, hf2, rfl, rfl, rfl⟩
    exact ⟨hs, hss, hf2⟩
  · rintro ⟨hs, hss, hf⟩
    exact ⟨sec, hs, sub, hss, f, hf, rfl, rfl, rfl⟩

theorem mem_clearKeys {schema : Schema} {dep : String} {sec : Section}
    {sub : SubSection} {f : Field} (hs : sec ∈ schema.sections) (hn : sec.name = dep)
    (hss : sub ∈ sec.subSections) (hf : f ∈ sub.fields) :
    getFieldKey sec.name sub.name f ∈ clearKeys schema dep := by
  simp only [clearKeys, List.mem_filterMap]
  refine ⟨(sec, sub, f), mem_allFields.mpr ⟨hs, hss, hf⟩, ?_⟩
  simp [hn]

/-! ## Helper lemmas: the key splitter -/

theorem splitUU_cons_ne (c : Char) (l : List Char) (hc : c ≠ '_') :
    splitUU (c :: l) = consHead c (splitUU l) := by
  rw [splitUU.eq_def]
  split
  · simp_all
  · rename_i rest heq
    injection heq with h1 h2
    exact absurd h1 hc
  · rename_i c2 rest heq
    injection heq with h1 h2
    rw [h1, h2]

theorem splitUU_uu (rest : List Char) :
    splitUU ('_' :: '_' :: rest) = [] :: splitUU rest := rfl

theorem splitUU_sep (a rest : List Char) (h : '_' ∉ a) :
    splitUU (a ++ '_' :: '_' :: rest) = a :: splitUU rest := by
  induction a with
  | nil => rw [List.nil_append, splitUU_uu]
  | cons c t ih =>
    have hc : c ≠ '_' := fun h2 => h (h2 ▸ List.mem_cons_self c t)
    have ht : '_' ∉ t := fun h2 => h (List.mem_cons_of_mem c h2)
    rw [List.cons_append, splitUU_cons_ne c _ hc, ih ht]
    rfl

theorem splitUU_no_sep (d : List Char) (h : '_' ∉ d) : splitUU d = [d] := by
  induction d with
  | nil => rfl
  | cons c t ih =>
    have hc : c ≠ '_' := fun h2 => h (h2 ▸ List.mem_cons_self c t)
    have ht : '_' ∉ t := fun h2 => h (List.mem_cons_of_mem c h2)
    rw [splitUU_cons_ne c t hc, ih ht]
    rfl

theorem data_append (a b : String) : (a ++ b).data = a.data ++ b.data := rfl

theorem jsSplit_key4 (a b c d : String) (ha : '_' ∉ a.data) (hb : '_' ∉ b.data)
    (hc : '_' ∉ c.data) (hd : '_' ∉ d.data) :
    jsSplit (key4 a b c d) = [a, b, c, d] := by
  unfold jsSplit key4
  have hdata : (a ++ "__" ++ b ++ "__" ++ c ++ "__" ++ d).data
      = a.data ++ '_' :: '_' :: (b.data ++ '_' :: '_' :: (c.data ++ '_' :: '_' :: d.data)) := by
    simp only [data_append, List.append_assoc]
    rfl
  rw [hdata, splitUU_sep _ _ ha, splitUU_sep _ _ hb, splitUU_sep _ _ hc,
    splitUU_no_sep _ hd]
  rfl

theorem key4_inj {a b c d a2 b2 c2 d2 : String} (ha : '_' ∉ a.data) (hb : '_' ∉ b.data)
    (hc : '_' ∉ c.data) (hd : '_' ∉ d.data) (ha2 : '_' ∉ a2.data) (hb2 : '_' ∉ b2.data)
    (hc2 : '_' ∉ c2.data) (hd2 : '_' ∉ d2.data)
    (heq : key4 a b c d = key4 a2 b2 c2 d2) :
    a = a2 ∧ b = b2 ∧ c = c2 ∧ d = d2 := by
  have h := congrArg jsSplit heq
  rw [jsSplit_key4 a b c d ha hb hc hd, jsSplit_key4 a2 b2 c2 d2 ha2 hb2 hc2 hd2] at h
  injection h with h1 h
  injection h with h2 h
  injection h with h3 h
  injection h with h4 h
  exact ⟨h1, h2, h3, h4⟩

/-! ## Helper lemmas: the dependency resolver -/

theorem applyRule_not_matching (schema : Schema) (fieldKey : String) (v : JSValue)
    (st : List String × JMap JSValue) (r : DepRule)
    (h : ruleMatches r fieldKey = false) :
    applyRule schema fieldKey v st r = st := by
  simp [applyRule, h]

theorem foldl_applyRule_id (schema : Schema) (fieldKey : String) (v : JSValue)
    (rules : List DepRule) (st : List String × JMap JSValue)
    (h : ∀ r ∈ rules, ruleMatches r fieldKey = false) :
    rules.foldl (applyRule schema fieldKey v) st = st := by
  induction rules generalizing st with
  | nil => rfl
  | cons r rest ih =>
    rw [List.foldl_cons, applyRule_not_matching schema fieldKey v st r
      (h r (List.mem_cons_self r rest))]
    exact ih st (fun r2 h2 => h r2 (List.mem_cons_of_mem r h2))

theorem clear_lookup_mem (schema : Schema) (dep : String) (m : JMap JSValue)
    {sec : Section} {sub : SubSection} {f : Field} (hs : sec ∈ schema.sections)
    (hn : sec.name = dep) (hss : sub ∈ sec.subSections) (hf : f ∈ sub.fields) :
    lookupA (clearSectionValues schema dep m) (getFieldKey sec.name sub.name f)
      = some (.str "") := by
  exact lookupA_foldl_const_mem _ _ m _ (mem_clearKeys hs hn hss hf)

theorem clear_lookup_pres (schema : Schema) (dep : String) (m : JMap JSValue)
    (j : String) (h : lookupA m j = some (.str "")) :
    lookupA (clearSectionValues schema dep m) j = some (.str "") := by
  exact lookupA_foldl_const_pres _ _ m j h

theorem applyRule_establishes (schema : Schema) (fieldKey : String) (v : JSValue)
    (st : List String × JMap JSValue) (r : DepRule)
    (hm : ruleMatches r fieldKey = true) (hv : v ≠ .str r.value) :
    RuleInv schema r.dependentSectionValue (applyRule schema fieldKey v st r) := by
  simp only [applyRule, hm, if_true, if_neg hv]
  constructor
  · intro hmemv
    exact (mem_sRemove.mp hmemv).2 rfl
  · intro sec hs hn sub hss f hf
    exact clear_lookup_mem schema _ _ hs hn hss hf

theorem applyRule_preserves (schema : Schema) (dep : String) (fieldKey : String)
    (v : JSValue) (st : List String × JMap JSValue) (r : DepRule)
    (hinv : RuleInv schema dep st)
    (hnoshow : ruleMatches r fieldKey = true → r.dependentSectionValue = dep →
      v ≠ .str r.value) :
    RuleInv schema dep (applyRule schema fieldKey v st r) := by
  by_cases hm : ruleMatches r fieldKey = true
  · by_cases hv : v = .str r.value
    · have hne : r.dependentSectionValue ≠ dep := fun h => hnoshow hm h hv
      simp only [applyRule, hm, if_true, if_pos hv]
      refine ⟨?_, hinv.2⟩
      intro hmemv
      rcases mem_sAdd.mp hmemv with h2 | h2
      · exact hinv.1 h2
      · exact hne h2.symm
    · simp only [applyRule, hm, if_true, if_neg hv]
      constructor
      · intro hmemv
        exact hinv.1 (mem_sRemove.mp hmemv).1
      · intro sec hs hn sub hss f hf
        exact clear_lookup_pres schema _ _ _ (hinv.2 sec hs hn sub hss f hf)
  · rw [applyRule_not_matching schema fieldKey v st r (Bool.eq_false_iff.mpr hm)]
    exact hinv

theorem foldl_applyRule_preserves (schema : Schema) (dep : String) (fieldKey : String)
    (v : JSValue) (rules : List DepRule) (st : List String × JMap JSValue)
    (hinv : RuleInv schema dep st)
    (hnoshow : ∀ r ∈ rules, ruleMatches r fieldKey = true →
      r.dependentSectionValue = dep → v ≠ .str r.value) :
    RuleInv schema dep (rules.foldl (applyRule schema fieldKey v) st) := by
  induction rules generalizing st with
  | nil => exact hinv
  | cons r rest ih =>
    rw [List.foldl_cons]
    exact ih _
      (applyRule_preserves schema dep fieldKey v st r hinv
        (hnoshow r (List.mem_cons_self r rest)))
      (fun r2 h2 => hnoshow r2 (List.mem_cons_of_mem r h2))

theorem applyRule_clear_pres (schema : Schema) (dep : String) (fieldKey : String)
    (v : JSValue) (st : List String × JMap JSValue) (r : DepRule)
    (h : ClearInv schema dep st.2) :
    ClearInv schema dep (applyRule schema fieldKey v st r).2 := by
  unfold applyRule
  by_cases hm : ruleMatches r fieldKey = true
  · rw [if_pos hm]
    by_cases hv : v = JSValue.str r.value
    · rw [if_pos hv]
      exact h
    · rw [if_neg hv]
      intro sec hs hn sub hss f hf
      exact clear_lookup_pres schema _ _ _ (h sec hs hn sub hss f hf)
  · rw [if_neg hm]
    exact h

theorem foldl_applyRule_clear_pres (schema : Schema) (dep : String) (fieldKey : String)
    (v : JSValue) (rules : List DepRule) (st : List String × JMap JSValue)
    (h : ClearInv schema dep st.2) :
    ClearInv schema dep (rules.foldl (applyRule schema fieldKey v) st).2 := by
  induction rules generalizing st with
  | nil => exact h
  | cons r rest ih =>
    rw [List.foldl_cons]
    exact ih _ (applyRule_clear_pres schema dep fieldKey v st r h)

/-! ## Helper lemmas: the validation walk -/

theorem upsert_nil {α : Type} (k : String) (v : α) : upsert ([] : JMap α) k v = [(k, v)] := by
  simp [upsert]

theorem validateFields_headKey (values : JMap JSValue) (pd : JSValue → Option Int)
    (now : Int) (rest : List (Section × SubSection × Field)) (m : JMap String)
    (errs : JMap String) (hm : m ≠ [])
    (h : validateFields values pd now rest m = .ok errs) :
    errs.head?.map Prod.fst = m.head?.map Prod.fst := by
  induction rest generalizing m with
  | nil =>
    rw [validateFields] at h
    injection h with h2
    rw [h2]
  | cons t rest2 ih =>
    rw [validateFields] at h
    rcases hr : runChecks t.2.1 t.2.2
        (storedValue values (getFieldKey t.1.name t.2.1.name t.2.2)) pd now with e | msg
    · rw [hr] at h
      exact absurd h (by simp)
    · rw [hr] at h
      cases msg with
      | none => exact ih m hm h
      | some msg2 =>
        have h3 := ih _ (upsert_ne_nil m _ msg2) h
        rw [h3, headKey_upsert m _ msg2 hm]

theorem validateFields_first (values : JMap JSValue) (pd : JSValue → Option Int)
    (now : Int) (W : List (Section × SubSection × Field)) (errs : JMap String)
    (h : validateFields values pd now W [] = .ok errs) :
    errs.head?.map Prod.fst = firstFailingKey values pd now W := by
  induction W with
  | nil =>
    rw [validateFields] at h
    injection h with h2
    rw [← h2]
    rfl
  | cons t rest ih =>
    rw [validateFields] at h
    rw [firstFailingKey]
    rcases hr : runChecks t.2.1 t.2.2
        (storedValue values (getFieldKey t.1.name t.2.1.name t.2.2)) pd now with e | msg
    · rw [hr] at h
      exact absurd h (by simp)
    · rw [hr] at h
      cases msg with
      | none => exact ih h
      | some msg2 =>
        have h2 : validateFields values pd now rest
            (upsert [] (getFieldKey t.1.name t.2.1.name t.2.2) msg2) = .ok errs := h
        rw [upsert_nil] at h2
        have h3 := validateFields_headKey values pd now rest _ errs (by simp) h2
        exact h3.trans rfl

theorem dateCheck_now_indep (f : Field) (v : JSValue) (pd : JSValue → Option Int)
    (n1 n2 : Int) (e : Option String)
    (h : f.inputType ≠ "DATE" ∨ f.isFutureDate = true) :
    dateCheck f v pd n1 e = dateCheck f v pd n2 e := by
  rcases h with h | h
  · simp [dateCheck, h]
  · simp [dateCheck, h]

theorem runChecks_now_indep (sub : SubSection) (f : Field) (v : JSValue)
    (pd : JSValue → Option Int) (n1 n2 : Int)
    (h : f.inputType ≠ "DATE" ∨ f.isFutureDate = true) :
    runChecks sub f v pd n1 = runChecks sub f v pd n2 := by
  rcases hmc : mandCheck f v with e | e1
  · simp [runChecks, hmc]
  · simp only [runChecks, hmc, chain2to8]
    rw [dateCheck_now_indep f v pd n1 n2 _ h]

theorem validateFields_now_indep (values : JMap JSValue) (pd : JSValue → Option Int)
    (n1 n2 : Int) (W : List (Section × SubSection × Field)) (m : JMap String)
    (h : ∀ t ∈ W, t.2.2.inputType ≠ "DATE" ∨ t.2.2.isFutureDate = true) :
    validateFields values pd n1 W m = validateFields values pd n2 W m := by
  induction W generalizing m with
  | nil => rfl
  | cons t rest ih =>
    rw [validateFields, validateFields,
      runChecks_now_indep t.2.1 t.2.2 _ pd n1 n2 (h t (List.mem_cons_self t rest))]
    rcases runChecks t.2.1 t.2.2
        (storedValue values (getFieldKey t.1.name t.2.1.name t.2.2)) pd n2 with e | msg
    · rfl
    · cases msg with
      | none => exact ih m (fun t2 h2 => h t2 (List.mem_cons_of_mem t h2))
      | some msg2 => exact ih _ (fun t2 h2 => h t2 (List.mem_cons_of_mem t h2))

theorem mem_walkFields {schema : Schema} {visible : List String}
    {t : Section × SubSection × Field} (h : t ∈ walkFields schema visible) :
    t.1 ∈ schema.sections ∧ t.2.1 ∈ t.1.subSections ∧ t.2.2 ∈ t.2.1.fields := by
  simp only [walkFields, List.mem_flatMap, List.mem_map, List.mem_filter] at h
  obtain ⟨sec, hsec, sub, hsub, f, hf, rfl⟩ := h
  exact ⟨hsec.1, hsub, hf.1⟩

/-! ## Helper lemmas: the initializer -/

theorem mem_foldl_sAdd_name (l : List Section) (init : List String) (x : String) :
    x ∈ l.foldl (fun s sec => sAdd s sec.name) init
      ↔ x ∈ init ∨ ∃ sec ∈ l, x = sec.name := by
  induction l generalizing init with
  | nil => simp
  | cons a t ih =>
    rw [List.foldl_cons, ih, mem_sAdd]
    constructor
    · rintro ((h | h) | ⟨sec, hsec, rfl⟩)
      · exact Or.inl h
      · exact Or.inr ⟨a, List.mem_cons_self a t, h⟩
      · exact Or.inr ⟨sec, List.mem_cons_of_mem a hsec, rfl⟩
    · rintro (h | ⟨sec, hsec, rfl⟩)
      · exact Or.inl (Or.inl h)
      · rcases List.mem_cons.mp hsec with rfl | hsec2
        · exact Or.inl (Or.inr rfl)
        · exact Or.inr ⟨sec, hsec2, rfl⟩

theorem lookupA_foldl_upsert_ne {α β : Type} (keyOf : β → String) (valOf : β → α)
    (L : List β) (m : JMap α) (j : String) (h : ∀ t ∈ L, keyOf t ≠ j) :
    lookupA (L.foldl (fun m t => upsert m (keyOf t) (valOf t)) m) j = lookupA m j := by
  induction L generalizing m with
  | nil => rfl
  | cons t rest ih =>
    rw [List.foldl_cons, ih _ (fun t2 h2 => h t2 (List.mem_cons_of_mem t h2)),
      lookupA_upsert, if_neg (fun h2 => h t (List.mem_cons_self t rest) h2.symm)]

theorem lookupA_foldl_upsert_nodup {α β : Type} (keyOf : β → String) (valOf : β → α)
    (L : List β) (m : JMap α) (x : β) (hmem : x ∈ L)
    (hnodup : (L.map keyOf).Nodup) :
    lookupA (L.foldl (fun m t => upsert m (keyOf t) (valOf t)) m) (keyOf x)
      = some (valOf x) := by
  induction L generalizing m with
  | nil => simp at hmem
  | cons t rest ih =>
    rw [List.map_cons, List.nodup_cons] at hnodup
    rcases List.mem_cons.mp hmem with rfl | hmem2
    · rw [List.foldl_cons,
        lookupA_foldl_upsert_ne keyOf valOf rest _ (keyOf x)
          (fun t2 h2 hk => hnodup.1 (hk ▸ List.mem_map_of_mem keyOf h2)),
        lookupA_upsert, if_pos rfl]
    · exact ih (upsert m (keyOf t) (valOf t)) hmem2 hnodup.2

theorem lookupA_foldl_upsert_filter {α β : Type} (keyOf : β → String) (valOf : β → α)
    (L : List β) (m : JMap α) (k : String) :
    lookupA (L.foldl (fun m t => upsert m (keyOf t) (valOf t)) m) k
      = match (L.filter (fun t => keyOf t = k)).getLast? with
        | some t => some (valOf t)
        | none => lookupA m k := by
  induction L generalizing m with
  | nil => rfl
  | cons t rest ih =>
    rw [List.foldl_cons, ih, List.filter_cons]
    by_cases hk : keyOf t = k
    · rw [if_pos (by simp [hk])]
      rcases rest.filter (fun t => decide (keyOf t = k)) with _ | ⟨t2, l2⟩
      · show lookupA (upsert m (keyOf t) (valOf t)) k = some (valOf t)
        rw [lookupA_upsert, if_pos hk.symm]
      · rfl
    · rw [if_neg (by simp [hk])]
      rcases rest.filter (fun t => decide (keyOf t = k)) with _ | ⟨t2, l2⟩
      · show lookupA (upsert m (keyOf t) (valOf t)) k = lookupA m k
        rw [lookupA_upsert, if_neg (fun h => hk h.symm)]
      · rfl

/-! ## Claim theorems -/

/-- C4 (code_bug evidence): when a mandatory image-attachment field's
stored value is a list, `validateForm` does not coerce and return an
error map — the mandatory check calls `.trim()` on the array first and
the pass throws a `TypeError`. -/
theorem c4_list_value_throws :
    validateForm schemaImgM [(keyImg, JSValue.list ["p1"])] ["M"] pd0 0
      = Except.error JsErr.typeError := by
  decide

/-- C7: the submission callback receives the (unchanged) value store
exactly when `validateForm` returns an empty error map; any failing check
prevents the call. -/
theorem c7_submit_iff_valid (schema : Schema) (st : EngineState)
    (pd : JSValue → Option Int) (now : Int) :
    ((∃ out, handleSubmit schema st pd now = Except.ok out ∧
        out.submitted = some st.values)
      ↔ validateForm schema st.values st.visible pd now = Except.ok []) ∧
    (∀ out, handleSubmit schema st pd now = Except.ok out → out.submitted ≠ none →
      out.submitted = some st.values ∧ out.errors = []) := by
  constructor
  · constructor
    · rintro ⟨out, hout, hsub⟩
      unfold handleSubmit at hout
      rcases hv : validateForm schema st.values st.visible pd now with e | errs
      · rw [hv] at hout
        exact absurd hout (by simp)
      · rw [hv] at hout
        cases errs with
        | nil => rfl
        | cons p rest =>
          simp only [List.isEmpty_cons, if_neg] at hout
          injection hout with hout2
          rw [← hout2] at hsub
          exact absurd hsub (by simp)
    · intro hv
      refine ⟨⟨some st.values, [], none⟩, ?_, rfl⟩
      unfold handleSubmit
      rw [hv]
      rfl
  · intro out hout hne
    unfold handleSubmit at hout
    rcases hv : validateForm schema st.values st.visible pd now with e | errs
    · rw [hv] at hout
      exact absurd hout (by simp)
    · rw [hv] at hout
      cases errs with
      | nil =>
        injection hout with hout2
        rw [← hout2]
        exact ⟨rfl, rfl⟩
      | cons p rest =>
        simp only [List.isEmpty_cons, if_neg] at hout
        injection hout with hout2
        rw [← hout2] at hne
        exact absurd rfl hne

/-- Witness for C7 at a concrete valid form. -/
theorem c7_witness :
    validateForm schemaOk (initState schemaOk).values (initState schemaOk).visible pd0 0
        = Except.ok [] ∧
    (∃ out, handleSubmit schemaOk (initState schemaOk) pd0 0 = Except.ok out ∧
      out.submitted = some (initState schemaOk).values) :=
  ⟨by decide, (c7_submit_iff_valid schemaOk (initState schemaOk) pd0 0).1.mpr (by decide)⟩

/-- C3 (counterexample): `validateForm` is not a function of the
(schema, valueStore, visibleSections) triple alone — with a date field
that disallows future dates, two invocations on the identical triple
disagree when the clock has moved past the stored date. -/
theorem c3_cex :
    validateForm schemaDate [(keyDate, JSValue.str "D")] ["D"] pdDemo 50
      ≠ validateForm schemaDate [(keyDate, JSValue.str "D")] ["D"] pdDemo 200 := by
  decide

/-- C3 (amended): `validateForm` is deterministic once the current time
is counted as an input; whenever no field is a date field with the
future-date flag cleared, the result does not depend on the time at all,
so repeated invocations on the same triple agree. -/
theorem c3_time_indep (schema : Schema) (values : JMap JSValue)
    (visible : List String) (pd : JSValue → Option Int) (n1 n2 : Int)
    (h : ∀ sec ∈ schema.sections, ∀ sub ∈ sec.subSections, ∀ f ∈ sub.fields,
      f.inputType ≠ "DATE" ∨ f.isFutureDate = true) :
    validateForm schema values visible pd n1 = validateForm schema values visible pd n2 := by
  unfold validateForm
  refine validateFields_now_indep values pd n1 n2 _ [] (fun t ht => ?_)
  have hm := mem_walkFields ht
  exact h t.1 hm.1 t.2.1 hm.2.1 t.2.2 hm.2.2

/-- Witness for C3 at a concrete date-free schema and two times. -/
theorem c3_witness :
    (∀ sec ∈ schemaOk.sections, ∀ sub ∈ sec.subSections, ∀ f ∈ sub.fields,
      f.inputType ≠ "DATE" ∨ f.isFutureDate = true) ∧
    validateForm schemaOk (initValues schemaOk) ["O"] pd0 0
      = validateForm schemaOk (initValues schemaOk) ["O"] pd0 1 :=
  ⟨by decide, c3_time_indep schemaOk (initValues schemaOk) ["O"] pd0 0 1 (by decide)⟩

/-- C8 (counterexample): the key exposed for focus after a failed submit
is the first failing field in declaration-list order, not in the
spec's order-index-sorted walk: with list order `[B (order 2), A (order
1)]` and both fields failing, the code exposes B's key while the sorted
walk begins with A's. -/
theorem c8_cex :
    (handleSubmit schemaOrd stOrd pd0 0).map (fun out => out.focusKey)
        = Except.ok (some (getFieldKey "S" "SS" fldOrd2)) ∧
    firstFailingKey stOrd.values pd0 0 (specSortedWalk schemaOrd stOrd.visible)
        = some (getFieldKey "S" "SS" fldOrd1) ∧
    getFieldKey "S" "SS" fldOrd2 ≠ getFieldKey "S" "SS" fldOrd1 := by
  refine ⟨by decide, by decide, by decide⟩

/-- C8 (amended): after a failed validation the exposed focus key is the
key of the first failing field in the code's walk order — sections in
list order, subsections in list order, fields in their original list
order (not sorted by `order`). -/
theorem c8_first_error (schema : Schema) (st : EngineState)
    (pd : JSValue → Option Int) (now : Int) (out : SubmitOutcome)
    (h : handleSubmit schema st pd now = Except.ok out) (hne : out.errors ≠ []) :
    out.focusKey = firstFailingKey st.values pd now (walkFields schema st.visible) := by
  unfold handleSubmit at h
  rcases hv : validateForm schema st.values st.visible pd now with e | errs
  · rw [hv] at h
    exact absurd h (by simp)
  · rw [hv] at h
    cases errs with
    | nil =>
      injection h with h2
      rw [← h2] at hne
      exact absurd rfl hne
    | cons p rest =>
      simp only [List.isEmpty_cons, if_neg] at h
      injection h with h2
      rw [← h2]
      exact validateFields_first st.values pd now _ _ hv

/-- Witness for C8 at the `schemaOrd` scenario. -/
theorem c8_witness :
    handleSubmit schemaOrd stOrd pd0 0 = Except.ok
      { submitted := none,
        errors := [(getFieldKey "S" "SS" fldOrd2, "B is required"),
                   (getFieldKey "S" "SS" fldOrd1, "A is required")],
        focusKey := some (getFieldKey "S" "SS" fldOrd2) } ∧
    ({ submitted := none,
       errors := [(getFieldKey "S" "SS" fldOrd2, "B is required"),
                  (getFieldKey "S" "SS" fldOrd1, "A is required")],
       focusKey := some (getFieldKey "S" "SS" fldOrd2) : SubmitOutcome }).errors ≠ [] ∧
    ({ submitted := none,
       errors := [(getFieldKey "S" "SS" fldOrd2, "B is required"),
                  (getFieldKey "S" "SS" fldOrd1, "A is required")],
       focusKey := some (getFieldKey "S" "SS" fldOrd2) : SubmitOutcome }).focusKey
      = firstFailingKey stOrd.values pd0 0 (walkFields schemaOrd stOrd.visible) :=
  ⟨by decide, by decide,
    c8_first_error schemaOrd stOrd pd0 0 _ (by decide) (by decide)⟩

/-- C1 (counterexample): with two rules watching the same field and
naming the same dependent section (triggers "Yes" and "No"), the change
to "No" fails to leave section B hidden — the first rule hides it, the
second re-adds it, so B is visible after the call even though the value
differs from the first rule's trigger. -/
theorem c1_cex :
    schemaTwoRules.dependentSectionsDetails = [ruleYes, ruleNo] ∧
    ruleMatches ruleYes keyQ = true ∧
    JSValue.str "No" ≠ JSValue.str ruleYes.value ∧
    ruleYes.dependentSectionValue = "B" ∧
    "B" ∈ (checkDependentSections schemaTwoRules ["A", "B"]
      (initValues schemaTwoRules) keyQ (JSValue.str "No")).1 := by
  refine ⟨rfl, by decide, by decide, rfl, by decide⟩

/-- C1 (amended): when a matching rule's trigger differs from the new
value, every field key of its dependent section is unconditionally
overwritten with the empty string; the section is moreover absent from
the visible set provided no matching rule later in declaration order
re-shows the same dependent section (its trigger equals the new
value). -/
theorem c1_hide (schema : Schema) (visible : List String) (values : JMap JSValue)
    (fieldKey : String) (v : JSValue) (pre post : List DepRule) (r : DepRule)
    (hrules : schema.dependentSectionsDetails = pre ++ r :: post)
    (hm : ruleMatches r fieldKey = true)
    (hv : v ≠ JSValue.str r.value) :
    ClearInv schema r.dependentSectionValue
      (checkDependentSections schema visible values fieldKey v).2 ∧
    ((∀ r2 ∈ post, ruleMatches r2 fieldKey = true →
        r2.dependentSectionValue = r.dependentSectionValue → v ≠ JSValue.str r2.value) →
      r.dependentSectionValue ∉ (checkDependentSections schema visible values fieldKey v).1) := by
  have hsplit : checkDependentSections schema visible values fieldKey v
      = post.foldl (applyRule schema fieldKey v)
          (applyRule schema fieldKey v
            (pre.foldl (applyRule schema fieldKey v) (visible, values)) r) := by
    unfold checkDependentSections
    rw [hrules, List.foldl_append, List.foldl_cons]
  constructor
  · rw [hsplit]
    exact foldl_applyRule_clear_pres schema _ fieldKey v post _
      (applyRule_establishes schema fieldKey v _ r hm hv).2
  · intro hpost
    rw [hsplit]
    exact (foldl_applyRule_preserves schema _ fieldKey v post _
      (applyRule_establishes schema fieldKey v _ r hm hv) hpost).1

/-- Witness for C1 at the one-rule schema, changed to "No": the clearing
conjunct holds outright and the visibility conjunct's proviso is
discharged (no rules follow the matched one). -/
theorem c1_witness :
    (schemaOneRule.dependentSectionsDetails = [] ++ ruleYes :: [] ∧
      ruleMatches ruleYes keyQ = true ∧
      JSValue.str "No" ≠ JSValue.str ruleYes.value) ∧
    ClearInv schemaOneRule ruleYes.dependentSectionValue
      (checkDependentSections schemaOneRule ["A", "B"] (initValues schemaOneRule)
        keyQ (JSValue.str "No")).2 ∧
    ruleYes.dependentSectionValue ∉
      (checkDependentSections schemaOneRule ["A", "B"] (initValues schemaOneRule)
        keyQ (JSValue.str "No")).1 :=
  ⟨⟨rfl, by decide, by decide⟩,
    (c1_hide schemaOneRule ["A", "B"] (initValues schemaOneRule) keyQ
      (JSValue.str "No") [] [] ruleYes rfl (by decide) (by decide)).1,
    (c1_hide schemaOneRule ["A", "B"] (initValues schemaOneRule) keyQ
      (JSValue.str "No") [] [] ruleYes rfl (by decide) (by decide)).2
      (fun r2 h2 => absurd h2 (List.not_mem_nil r2))⟩

/-- C5 (counterexample): two distinct fields (different default values)
at different positions of the same subsection share every key component,
so `getFieldKey` collides. -/
theorem c5_cex :
    fldDupX ≠ fldDupY ∧
    (⟨{ name := "S", subSections := [{ name := "SS", fields := [fldDupX, fldDupY] }] },
       { name := "SS", fields := [fldDupX, fldDupY] }, fldDupX⟩ ∈ allFields schemaDup) ∧
    (⟨{ name := "S", subSections := [{ name := "SS", fields := [fldDupX, fldDupY] }] },
       { name := "SS", fields := [fldDupX, fldDupY] }, fldDupY⟩ ∈ allFields schemaDup) ∧
    getFieldKey "S" "SS" fldDupX = getFieldKey "S" "SS" fldDupY := by
  refine ⟨by decide, by decide, by decide, rfl⟩

/-- C5 (amended): `getFieldKey` is injective on the quadruple it is built
from — two fields whose (section name, subsection name, field name,
reference-id-or-order) quadruples differ receive distinct keys, provided
the components are free of the underscore character used by the
delimiter. -/
theorem c5_key_injective (s1 ss1 : String) (f1 : Field) (s2 ss2 : String) (f2 : Field)
    (h1 : '_' ∉ s1.data) (h2 : '_' ∉ ss1.data) (h3 : '_' ∉ f1.name.data)
    (h4 : '_' ∉ (fieldRef f1).data) (h5 : '_' ∉ s2.data) (h6 : '_' ∉ ss2.data)
    (h7 : '_' ∉ f2.name.data) (h8 : '_' ∉ (fieldRef f2).data)
    (hne : (s1, ss1, f1.name, fieldRef f1) ≠ (s2, ss2, f2.name, fieldRef f2)) :
    getFieldKey s1 ss1 f1 ≠ getFieldKey s2 ss2 f2 := by
  intro heq
  have heq2 : key4 s1 ss1 f1.name (fieldRef f1) = key4 s2 ss2 f2.name (fieldRef f2) := heq
  have h := key4_inj h1 h2 h3 h4 h5 h6 h7 h8 heq2
  exact hne (by rw [h.1, h.2.1, h.2.2.1, h.2.2.2])

/-- Witness for C5 on two concrete underscore-free fields. -/
theorem c5_witness :
    ('_' ∉ "S".data ∧ '_' ∉ "SS".data ∧ '_' ∉ fldOrd1.name.data ∧
      '_' ∉ (fieldRef fldOrd1).data ∧ '_' ∉ fldOrd2.name.data ∧
      '_' ∉ (fieldRef fldOrd2).data ∧
      ("S", "SS", fldOrd1.name, fieldRef fldOrd1)
        ≠ ("S", "SS", fldOrd2.name, fieldRef fldOrd2)) ∧
    getFieldKey "S" "SS" fldOrd1 ≠ getFieldKey "S" "SS" fldOrd2 :=
  ⟨by decide,
    c5_key_injective "S" "SS" fldOrd1 "S" "SS" fldOrd2 (by decide) (by decide)
      (by decide) (by decide) (by decide) (by decide) (by decide) (by decide)
      (by decide)⟩

/-- C6 (counterexample): a section name with a single trailing underscore
contains no occurrence of the `"__"` delimiter, yet splitting the derived
key does not recover it — the underscore fuses with the delimiter and the
first split component comes back short. -/
theorem c6_cex :
    splitUU "a_".data = ["a_".data] ∧
    splitUU "b".data = ["b".data] ∧
    splitUU "c".data = ["c".data] ∧
    fldC6.sfField = "d" ∧
    jsSplit (getFieldKey "a_" "b" fldC6) = ["a", "_b", "c", "d"] ∧
    keyPart0 (getFieldKey "a_" "b" fldC6) = "a" ∧
    "a" ≠ "a_" := by
  refine ⟨by decide, by decide, by decide, rfl, by decide, by decide, by decide⟩

/-- C6 (amended): when the section name, subsection name, field name and
reference id contain no underscore character at all and the reference id
is non-empty, splitting the derived key on the delimiter recovers exactly
the four components — in particular the section name first and the
reference id fourth, as the dependency resolver consumes them. -/
theorem c6_roundtrip (s ss : String) (f : Field) (ha : '_' ∉ s.data)
    (hb : '_' ∉ ss.data) (hc : '_' ∉ f.name.data) (hd : '_' ∉ f.sfField.data)
    (hsf : f.sfField ≠ "") :
    jsSplit (getFieldKey s ss f) = [s, ss, f.name, f.sfField] ∧
    keyPart0 (getFieldKey s ss f) = s ∧
    keyPart3 (getFieldKey s ss f) = some f.sfField := by
  have href : fieldRef f = f.sfField := by rw [fieldRef, if_neg hsf]
  have hsplit : jsSplit (getFieldKey s ss f) = [s, ss, f.name, f.sfField] := by
    show jsSplit (key4 s ss f.name (fieldRef f)) = [s, ss, f.name, f.sfField]
    rw [href]
    exact jsSplit_key4 s ss f.name f.sfField ha hb hc hd
  refine ⟨hsplit, ?_, ?_⟩
  · rw [keyPart0, hsplit]
    rfl
  · rw [keyPart3, hsplit]
    rfl

/-- Witness for C6 on a concrete underscore-free field. -/
theorem c6_witness :
    ('_' ∉ "A".data ∧ '_' ∉ "S".data ∧ '_' ∉ fldC6.name.data ∧
      '_' ∉ fldC6.sfField.data ∧ fldC6.sfField ≠ "") ∧
    (jsSplit (getFieldKey "A" "S" fldC6) = ["A", "S", fldC6.name, fldC6.sfField] ∧
      keyPart0 (getFieldKey "A" "S" fldC6) = "A" ∧
      keyPart3 (getFieldKey "A" "S" fldC6) = some fldC6.sfField) :=
  ⟨by decide,
    c6_roundtrip "A" "S" fldC6 (by decide) (by decide) (by decide) (by decide)
      (by decide)⟩

/-- C2 (counterexample): the attachment count checks do not apply
independently of the mandatory flag — a visible, non-hidden,
non-mandatory image field in a subsection with minimum capture 2, holding
a single attachment, produces no error at all. -/
theorem c2_cex :
    imgFieldO.mandatory = false ∧
    imgFieldO.fieldType = "IMAGE" ∧
    imgFieldO.isHidden = false ∧
    subCapO.minImageCapture = 2 ∧
    (coerceList (storedValue [(keyImg, JSValue.str "p1")] keyImg)).length = 1 ∧
    validateForm schemaImgO [(keyImg, JSValue.str "p1")] ["M"] pd0 0 = Except.ok [] := by
  refine ⟨rfl, rfl, rfl, rfl, by decide, by decide⟩

/-- C2 (amended): the count checks are gated on the mandatory flag.  For
a mandatory image field with a single string attachment and a declared
minimum above one, the chain reports the minimum-count error; for the
same situation with the mandatory flag cleared (and no other applicable
check), the chain reports nothing. -/
theorem c2_image_counts :
    (∀ (sub : SubSection) (f : Field) (s : String) (pd : JSValue → Option Int)
        (now : Int),
      f.fieldType = "IMAGE" → f.mandatory = true → f.inputType ≠ "TEXT" →
      f.inputType ≠ "NUMBER" → s ≠ "" → 1 < sub.minImageCapture →
      runChecks sub f (JSValue.str s) pd now
        = Except.ok (some (f.name ++ " requires at least " ++
            toString sub.minImageCapture ++ " image(s)."))) ∧
    (∀ (sub : SubSection) (f : Field) (s : String) (pd : JSValue → Option Int)
        (now : Int),
      f.fieldType = "IMAGE" → f.mandatory = false → f.valueLength = none →
      f.valueMinLength = none → f.inputType ≠ "TEXT" → f.inputType ≠ "NUMBER" →
      f.inputType ≠ "DATE" → s ≠ "" → 1 < sub.minImageCapture →
      runChecks sub f (JSValue.str s) pd now = Except.ok none) := by
  constructor
  · intro sub f s pd now hft hmand hTxt hNum hs hmin
    have hpos : 0 < sub.minImageCapture := Nat.lt_trans Nat.zero_lt_one hmin
    have hc1 : (coerceList (JSValue.str s)).length = 1 := by simp [coerceList, hs]
    have himg : ∀ e : Option String, imageCheck sub f (JSValue.str s) e
        = some (f.name ++ " requires at least " ++ toString sub.minImageCapture
            ++ " image(s).") := by
      intro e
      simp only [imageCheck]
      rw [hft, hmand]
      simp [hc1, hpos, hmin]
      intro h1 h2
      omega
    have hvid : ∀ e : Option String, videoCheck f (JSValue.str s) e = e := by
      intro e
      simp [videoCheck, hft]
    have hmail : ∀ e : Option String, emailCheck f (JSValue.str s) e = e := by
      intro e
      simp [emailCheck, hTxt]
    have hphone : phoneCond f (JSValue.str s) = false := by
      simp [phoneCond, hNum]
    have hmc : mandCheck f (JSValue.str s)
        = Except.ok (if jsTrim s = "" then some (f.name ++ " is required") else none) := by
      simp [mandCheck, hmand]
    have hrun : runChecks sub f (JSValue.str s) pd now
        = Except.ok (chain2to8 sub f (JSValue.str s) pd now
            (if jsTrim s = "" then some (f.name ++ " is required") else none)) := by
      unfold runChecks
      rw [hmc, hphone]
      rfl
    rw [hrun]
    exact congrArg Except.ok (by unfold chain2to8; rw [himg, hvid, hmail])
  · intro sub f s pd now hft hmand hVL hVML hTxt hNum hDate hs hmin
    have hmc : mandCheck f (JSValue.str s) = Except.ok none := by
      simp [mandCheck, hmand]
    have hphone : phoneCond f (JSValue.str s) = false := by
      simp [phoneCond, hNum]
    have hmaxl : ∀ e : Option String, maxLenCheck f (JSValue.str s) e = e := by
      intro e
      simp [maxLenCheck, hVL]
    have hminl : ∀ e : Option String, minLenCheck f (JSValue.str s) e = e := by
      intro e
      simp [minLenCheck, hVML]
    have hnum : ∀ e : Option String, numCheck f (JSValue.str s) e = e := by
      intro e
      simp [numCheck, hNum]
    have hdate : ∀ e : Option String, dateCheck f (JSValue.str s) pd now e = e := by
      intro e
      simp [dateCheck, hDate]
    have himg : ∀ e : Option String, imageCheck sub f (JSValue.str s) e = e := by
      intro e
      simp [imageCheck, hmand]
    have hvid : ∀ e : Option String, videoCheck f (JSValue.str s) e = e := by
      intro e
      simp [videoCheck, hft]
    have hmail : ∀ e : Option String, emailCheck f (JSValue.str s) e = e := by
      intro e
      simp [emailCheck, hTxt]
    have hrun : runChecks sub f (JSValue.str s) pd now
        = Except.ok (chain2to8 sub f (JSValue.str s) pd now none) := by
      unfold runChecks
      rw [hmc, hphone]
      rfl
    rw [hrun]
    exact congrArg Except.ok
      (by unfold chain2to8; rw [hmaxl, hminl, hnum, hdate, himg, hvid, hmail])

/-- Witness for C2: the mandatory image field with one attachment gets
the minimum-count error; the optional one gets nothing. -/
theorem c2_witness :
    (imgFieldM.fieldType = "IMAGE" ∧ imgFieldM.mandatory = true ∧
      imgFieldO.mandatory = false ∧ 1 < subCapM.minImageCapture) ∧
    runChecks subCapM imgFieldM (JSValue.str "p1") pd0 0
      = Except.ok (some "Photo requires at least 2 image(s).") ∧
    runChecks subCapO imgFieldO (JSValue.str "p1") pd0 0 = Except.ok none :=
  ⟨by decide,
    c2_image_counts.1 subCapM imgFieldM "p1" pd0 0 rfl rfl (by decide) (by decide)
      (by decide) (by decide),
    c2_image_counts.2 subCapO imgFieldO "p1" pd0 0 rfl rfl rfl rfl (by decide)
      (by decide) (by decide) (by decide) (by decide)⟩

/-- C9 (counterexample): with two colliding fields in one subsection, the
first field's key ends up mapped to the second field's default, not its
own. -/
theorem c9_cex :
    fldDupX.value = "x" ∧
    lookupA (initValues schemaDup) (getFieldKey "S" "SS" fldDupX)
      = some (JSValue.str "y") ∧
    JSValue.str "y" ≠ JSValue.str (jsOrStr fldDupX.value) := by
  refine ⟨rfl, by decide, by decide⟩

/-- C9 (amended): `initialize` adds every section name to the visible
set unconditionally and fills the expanded set from exactly the flagged
sections and the flagged subsections' composite keys (both without any
proviso); every key of the value store holds the default of the last
field in walk order deriving that key (so colliding keys resolve to the
last colliding field's default), and therefore, when the derived keys
are pairwise distinct, every field's key maps to its own declared
default (empty string when the default is absent). -/
theorem c9_init (schema : Schema) :
    (∀ sec ∈ schema.sections, sec.name ∈ initVisible schema) ∧
    (∀ x : String, x ∈ initExpanded schema ↔
      ∃ sec ∈ schema.sections,
        (sec.isPrePopulateData = true ∧ x = sec.name) ∨
        ∃ sub ∈ sec.subSections,
          sub.isPrePopulateData = true ∧ x = sec.name ++ "-" ++ sub.name) ∧
    (∀ k : String, lookupA (initValues schema) k
      = match ((allFields schema).filter
            (fun t => getFieldKey t.1.name t.2.1.name t.2.2 = k)).getLast? with
        | some t => some (JSValue.str (jsOrStr t.2.2.value))
        | none => none) ∧
    ((allKeys schema).Nodup →
      ∀ sec ∈ schema.sections, ∀ sub ∈ sec.subSections, ∀ f ∈ sub.fields,
        lookupA (initValues schema) (getFieldKey sec.name sub.name f)
          = some (JSValue.str (jsOrStr f.value))) := by
  refine ⟨?_, ?_, ?_, ?_⟩
  · intro sec hs
    unfold initVisible
    exact (mem_foldl_sAdd_name schema.sections [] sec.name).mpr
      (Or.inr ⟨sec, hs, rfl⟩)
  · intro x
    unfold initExpanded
    rw [mem_foldl_sAdd]
    simp only [List.not_mem_nil, false_or]
    unfold expandedKeys
    simp only [List.mem_flatMap, List.mem_append, List.mem_filterMap]
    constructor
    · rintro ⟨sec, hs, hx | ⟨sub, hsub, heq⟩⟩
      · by_cases hflag : sec.isPrePopulateData = true
        · refine ⟨sec, hs, Or.inl ⟨hflag, ?_⟩⟩
          rw [hflag] at hx
          simpa using hx
        · rw [Bool.eq_false_iff.mpr hflag] at hx
          simp at hx
      · by_cases hflag : sub.isPrePopulateData = true
        · rw [hflag] at heq
          simp only [if_true] at heq
          injection heq with heq2
          exact ⟨sec, hs, Or.inr ⟨sub, hsub, hflag, heq2.symm⟩⟩
        · rw [Bool.eq_false_iff.mpr hflag] at heq
          simp at heq
    · rintro ⟨sec, hs, ⟨hflag, rfl⟩ | ⟨sub, hsub, hflag, rfl⟩⟩
      · exact ⟨sec, hs, Or.inl (by simp [hflag])⟩
      · exact ⟨sec, hs, Or.inr ⟨sub, hsub, by simp [hflag]⟩⟩
  · intro k
    have h := lookupA_foldl_upsert_filter
      (fun t : Section × SubSection × Field => getFieldKey t.1.name t.2.1.name t.2.2)
      (fun t : Section × SubSection × Field => JSValue.str (jsOrStr t.2.2.value))
      (allFields schema) [] k
    simp only at h
    unfold initValues
    rcases hlast : ((allFields schema).filter
        (fun t => decide (getFieldKey t.1.name t.2.1.name t.2.2 = k))).getLast?
      with _ | t0
    · rw [hlast] at h ⊢
      exact h
    · rw [hlast] at h ⊢
      exact h
  · intro hnodup sec hs sub hsub f hf
    have h := lookupA_foldl_upsert_nodup
      (fun t : Section × SubSection × Field => getFieldKey t.1.name t.2.1.name t.2.2)
      (fun t : Section × SubSection × Field => JSValue.str (jsOrStr t.2.2.value))
      (allFields schema) [] (sec, sub, f)
      (mem_allFields.mpr ⟨hs, hsub, hf⟩) hnodup
    simp only at h
    unfold initValues
    exact h

/-- Witness for C9 at the collision-free `schemaOneRule`, discharging the
key-distinctness proviso of the per-field-default conjunct. -/
theorem c9_witness :
    (allKeys schemaOneRule).Nodup ∧
    ((∀ sec ∈ schemaOneRule.sections, sec.name ∈ initVisible schemaOneRule) ∧
      (∀ x : String, x ∈ initExpanded schemaOneRule ↔
        ∃ sec ∈ schemaOneRule.sections,
          (sec.isPrePopulateData = true ∧ x = sec.name) ∨
          ∃ sub ∈ sec.subSections,
            sub.isPrePopulateData = true ∧ x = sec.name ++ "-" ++ sub.name) ∧
      (∀ k : String, lookupA (initValues schemaOneRule) k
        = match ((allFields schemaOneRule).filter
              (fun t => getFieldKey t.1.name t.2.1.name t.2.2 = k)).getLast? with
          | some t => some (JSValue.str (jsOrStr t.2.2.value))
          | none => none)) ∧
    (∀ sec ∈ schemaOneRule.sections, ∀ sub ∈ sec.subSections, ∀ f ∈ sub.fields,
      lookupA (initValues schemaOneRule) (getFieldKey sec.name sub.name f)
        = some (JSValue.str (jsOrStr f.value))) :=
  ⟨by decide,
    ⟨(c9_init schemaOneRule).1, (c9_init schemaOneRule).2.1, (c9_init schemaOneRule).2.2.1⟩,
    (c9_init schemaOneRule).2.2.2 (by decide)⟩

/-- C10: a field edit that triggers no dependency rule touches exactly
its own value entry and its own (truthy) error entry: every other value,
every other error, the visible set and the expanded set are unchanged. -/
theorem c10_frame (schema : Schema) (st : EngineState) (fieldKey : String)
    (v : JSValue)
    (hrules : ∀ r ∈ schema.dependentSectionsDetails, ruleMatches r fieldKey = false)
    (herr : lookupA st.errors fieldKey ≠ some "") :
    lookupA (handleFieldChange schema st fieldKey v).values fieldKey = some v ∧
    (∀ k, k ≠ fieldKey → lookupA (handleFieldChange schema st fieldKey v).values k
      = lookupA st.values k) ∧
    lookupA (handleFieldChange schema st fieldKey v).errors fieldKey = none ∧
    (∀ k, k ≠ fieldKey → lookupA (handleFieldChange schema st fieldKey v).errors k
      = lookupA st.errors k) ∧
    (handleFieldChange schema st fieldKey v).visible = st.visible ∧
    (handleFieldChange schema st fieldKey v).expanded = st.expanded := by
  have hcds : checkDependentSections schema st.visible (upsert st.values fieldKey v)
      fieldKey v = (st.visible, upsert st.values fieldKey v) :=
    foldl_applyRule_id schema fieldKey v _ _ hrules
  refine ⟨?_, ?_, ?_, ?_, ?_, rfl⟩
  · show lookupA (checkDependentSections schema st.visible
        (upsert st.values fieldKey v) fieldKey v).2 fieldKey = some v
    rw [hcds, lookupA_upsert, if_pos rfl]
  · intro k hk
    show lookupA (checkDependentSections schema st.visible
        (upsert st.values fieldKey v) fieldKey v).2 k = lookupA st.values k
    rw [hcds, lookupA_upsert, if_neg hk]
  · show lookupA
      (match lookupA st.errors fieldKey with
        | some m => if m ≠ "" then eraseA st.errors fieldKey else st.errors
        | none => st.errors) fieldKey = none
    rcases he : lookupA st.errors fieldKey with _ | m
    · exact he
    · have hm : m ≠ "" := fun h2 => herr (by rw [he, h2])
      dsimp only
      rw [if_pos hm, lookupA_eraseA, if_pos rfl]
  · intro k hk
    show lookupA
      (match lookupA st.errors fieldKey with
        | some m => if m ≠ "" then eraseA st.errors fieldKey else st.errors
        | none => st.errors) k = lookupA st.errors k
    rcases he : lookupA st.errors fieldKey with _ | m
    · rfl
    · dsimp only
      by_cases hm : m ≠ ""
      · rw [if_pos hm, lookupA_eraseA, if_neg hk]
      · rw [if_neg hm]
  · show (checkDependentSections schema st.visible
        (upsert st.values fieldKey v) fieldKey v).1 = st.visible
    rw [hcds]

/-- Witness for C10 at the frame scenario: an edit to section B's field
under a schema whose only rule watches section A. -/
theorem c10_witness :
    ((∀ r ∈ schemaOneRule.dependentSectionsDetails, ruleMatches r keyR = false) ∧
      lookupA stFrame.errors keyR ≠ some "") ∧
    (lookupA (handleFieldChange schemaOneRule stFrame keyR (JSValue.str "x")).values keyR
        = some (JSValue.str "x") ∧
      (∀ k, k ≠ keyR →
        lookupA (handleFieldChange schemaOneRule stFrame keyR (JSValue.str "x")).values k
          = lookupA stFrame.values k) ∧
      lookupA (handleFieldChange schemaOneRule stFrame keyR (JSValue.str "x")).errors keyR
        = none ∧
      (∀ k, k ≠ keyR →
        lookupA (handleFieldChange schemaOneRule stFrame keyR (JSValue.str "x")).errors k
          = lookupA stFrame.errors k) ∧
      (handleFieldChange schemaOneRule stFrame keyR (JSValue.str "x")).visible
        = stFrame.visible ∧
      (handleFieldChange schemaOneRule stFrame keyR (JSValue.str "x")).expanded
        = stFrame.expanded) :=
  ⟨⟨by decide, by decide⟩,
    c10_frame schemaOneRule stFrame keyR (JSValue.str "x") (by decide) (by decide)⟩

end BankingForm
